import Mathlib

/-!
Shallow embedding of `compfipy/asset.py` (technical-analysis indicators and
summary statistics over OHLCV price series), together with proofs settling
the frozen claims about its specification.

Price series are embedded as `List ℚ` (a bar's close/high/low), timestamps
as natural numbers.  Machine floats are embedded as exact rationals; where a
claim is about IEEE NaN/infinity behaviour (RSI, ADX) we use the explicit
four-constructor type `FP` below, which models the float values that actually
arise in those computations (finite, +inf, -inf, NaN) with the arithmetic the
code performs on them.
-/

namespace Compfipy

/-! ## Drawdown (`Asset.drawdown`, asset.py lines 712-728)

The source copies the close series, forward-fills missing data, replaces any
still-missing leading values by -inf, takes the expanding (running) maximum,
and returns `close / running_max - 1`.  On a series without missing values --
the setting of the claims, which quantify over series of positive closes --
the forward-fill and the NaN replacement are the identity, so the embedding
works directly with the list of closes. -/

/-- Tail of the expanding maximum: `runmaxAux m xs` is the running maximum of
`xs` where `m` is the maximum of the bars already seen. -/
def runmaxAux (m : ℚ) : List ℚ → List ℚ
  | [] => []
  | x :: xs => max m x :: runmaxAux (max m x) xs

/-- `draw_down.expanding().max()`: the running maximum-to-date of the series
(the current bar included). -/
def runmax : List ℚ → List ℚ
  | [] => []
  | x :: xs => x :: runmaxAux x xs

/-- `Asset.drawdown`: `close[i] / running_max[i] - 1` at every bar. -/
def drawdown (c : List ℚ) : List ℚ :=
  List.zipWith (fun x m => x / m - 1) c (runmax c)

theorem runmaxAux_length (m : ℚ) (l : List ℚ) : (runmaxAux m l).length = l.length := by
  induction l generalizing m with
  | nil => rfl
  | cons x xs ih => simp [runmaxAux, ih]

theorem runmax_length (l : List ℚ) : (runmax l).length = l.length := by
  cases l with
  | nil => rfl
  | cons x xs => simp [runmax, runmaxAux_length]

theorem drawdown_length (c : List ℚ) : (drawdown c).length = c.length := by
  simp [drawdown, runmax_length]

theorem runmaxAux_le (m : ℚ) (l : List ℚ) (i : ℕ) (hi : i < l.length) :
    l.get ⟨i, hi⟩ ≤ (runmaxAux m l).get ⟨i, by rw [runmaxAux_length]; exact hi⟩ := by
  induction l generalizing m i with
  | nil => exact absurd hi (by simp)
  | cons x xs ih =>
    cases i with
    | zero => simp [runmaxAux]
    | succ j =>
      simpa [runmaxAux] using ih (max m x) j (by simpa using hi)

theorem runmax_le (l : List ℚ) (i : ℕ) (hi : i < l.length) :
    l.get ⟨i, hi⟩ ≤ (runmax l).get ⟨i, by rw [runmax_length]; exact hi⟩ := by
  cases l with
  | nil => exact absurd hi (by simp)
  | cons x xs =>
    cases i with
    | zero => simp [runmax]
    | succ j => simpa [runmax] using runmaxAux_le x xs j (by simpa using hi)

theorem runmaxAux_pos (m : ℚ) (l : List ℚ) (hm : 0 < m) (hl : ∀ q ∈ l, 0 < q)
    (i : ℕ) (hi : i < (runmaxAux m l).length) :
    0 < (runmaxAux m l).get ⟨i, hi⟩ := by
  induction l generalizing m i with
  | nil => exact absurd hi (by simp [runmaxAux])
  | cons x xs ih =>
    cases i with
    | zero => simpa [runmaxAux] using lt_max_of_lt_left hm
    | succ j =>
      refine ih (max m x) (lt_max_of_lt_left hm) (fun q hq => hl q (List.mem_cons_of_mem _ hq)) j ?_

theorem runmax_pos (l : List ℚ) (hl : ∀ q ∈ l, 0 < q)
    (i : ℕ) (hi : i < (runmax l).length) :
    0 < (runmax l).get ⟨i, hi⟩ := by
  cases l with
  | nil => exact absurd hi (by simp [runmax])
  | cons x xs =>
    cases i with
    | zero => simpa [runmax] using hl x (by simp)
    | succ j =>
      refine runmaxAux_pos x xs (hl x (by simp))
        (fun q hq => hl q (List.mem_cons_of_mem _ hq)) j ?_

theorem drawdown_get (c : List ℚ) (i : ℕ) (hi : i < (drawdown c).length) :
    (drawdown c).get ⟨i, hi⟩ =
      c.get ⟨i, by rw [drawdown_length] at hi; exact hi⟩ /
        (runmax c).get ⟨i, by rw [runmax_length, ← drawdown_length c]; exact hi⟩ - 1 := by
  simp [drawdown]

/-- **C9** — For a close-price series of positive values, every entry of
`drawdown` is ≤ 0, and an entry is exactly 0 precisely at the bars whose close
attains the running maximum to date (a new all-time high). -/
theorem drawdown_nonpos_and_zero_at_high (c : List ℚ) (hpos : ∀ q ∈ c, 0 < q)
    (i : ℕ) (hi : i < (drawdown c).length) :
    (drawdown c).get ⟨i, hi⟩ ≤ 0 ∧
      ((drawdown c).get ⟨i, hi⟩ = 0 ↔
        c.get ⟨i, by rw [drawdown_length] at hi; exact hi⟩ =
          (runmax c).get ⟨i, by rw [runmax_length, ← drawdown_length c]; exact hi⟩) := by
  have hi' : i < c.length := by rw [drawdown_length] at hi; exact hi
  have him : i < (runmax c).length := by rw [runmax_length]; exact hi'
  have hmpos : 0 < (runmax c).get ⟨i, him⟩ := runmax_pos c hpos i him
  have hle : c.get ⟨i, hi'⟩ ≤ (runmax c).get ⟨i, him⟩ := runmax_le c i hi'
  rw [drawdown_get]
  constructor
  · have : c.get ⟨i, hi'⟩ / (runmax c).get ⟨i, him⟩ ≤ 1 :=
      (div_le_one hmpos).mpr hle
    linarith
  · constructor
    · intro h
      have h1 : c.get ⟨i, hi'⟩ / (runmax c).get ⟨i, him⟩ = 1 := by linarith
      have := (div_eq_one_iff_eq (ne_of_gt hmpos)).mp h1
      exact this
    · intro h
      rw [h, div_self (ne_of_gt hmpos)]
      ring

/-- Witness for C9 at the concrete series `[4, 2, 8]`, bar 2 (a new all-time
high, so the drawdown there is exactly 0). -/
theorem drawdown_nonpos_and_zero_at_high_witness :
    (∀ q ∈ ([4, 2, 8] : List ℚ), 0 < q) ∧
      ((drawdown [4, 2, 8]).get ⟨2, by decide⟩ ≤ 0 ∧
        ((drawdown [4, 2, 8]).get ⟨2, by decide⟩ = 0 ↔
          ([4, 2, 8] : List ℚ).get ⟨2, by decide⟩ =
            (runmax [4, 2, 8]).get ⟨2, by decide⟩)) :=
  ⟨by decide, drawdown_nonpos_and_zero_at_high [4, 2, 8] (by decide) 2 (by decide)⟩

/-! ## Drawdown episode table (`Asset.drawdown_info`, asset.py lines 730-762)

The source marks the bars where the drawdown is exactly zero, extracts the
0→nonzero boundaries as episode starts and the nonzero→0 boundaries as episode
ends, patches the boundary lists (append the last bar when no end exists,
prepend the first bar when the series starts in drawdown, append the last bar
when it ends in drawdown), and builds a table of
(start, end, duration, minimum drawdown over the episode).

The boundary patching reads `start[0]`, which in Python raises `IndexError`
when the start list is empty (a series that never enters drawdown).  The
embedding returns `Option`: `none` models that exception. -/

/-- Minimum of the inclusive slice `l[s..e]` (the label-based pandas slice
`drawdown[s:e]` includes both endpoints). -/
def sliceMin (l : List ℚ) (s e : ℕ) : ℚ :=
  match (l.drop s).take (e + 1 - s) with
  | [] => 0
  | x :: xs => xs.foldl min x

/-- Episode start boundaries: bars `i ≥ 1` with `¬is_zero[i] ∧ is_zero[i-1]`
(`start = ~is_zero & is_zero.shift(1)`). -/
def startIdxs (z : List Bool) : List ℕ :=
  ((List.range z.length).drop 1).filter fun i => !(z.getD i true) && z.getD (i - 1) false

/-- Episode end boundaries: bars `i ≥ 1` with `is_zero[i] ∧ ¬is_zero[i-1]`
(`end = is_zero & (~is_zero).shift(1)`). -/
def endIdxs (z : List Bool) : List ℕ :=
  ((List.range z.length).drop 1).filter fun i => z.getD i false && !(z.getD (i - 1) true)

/-- `Asset.drawdown_info`: rows `(start, end, days, min drawdown)`.  Timestamps
are bar indices.  `none` models the `IndexError` raised by `start[0]` when the
start list is empty. -/
def drawdown_info (c : List ℚ) : Option (List (ℕ × ℕ × ℕ × ℚ)) :=
  let dd := drawdown c
  let z := dd.map (fun q => decide (q = 0))
  let e0 := endIdxs z
  let e1 := if e0.isEmpty then [dd.length - 1] else e0
  match startIdxs z with
  | [] => none
  | s0 :: rest =>
    let s1 := if e1.headD 0 < s0 then 0 :: s0 :: rest else s0 :: rest
    let e2 := if e1.getLastD 0 < s1.getLastD 0 then e1 ++ [dd.length - 1] else e1
    some ((s1.zip e2).map fun p => (p.1, p.2, p.2 - p.1, sliceMin dd p.1 p.2))

/-- **C3** — On a monotonically non-decreasing close series the drawdown never
leaves zero, the start-boundary list is empty, and `drawdown_info` fails
(`start[0]` raises `IndexError`, modelled as `none`) instead of returning a
well-formed empty episode table as the specification states. -/
theorem drawdown_info_fails_without_drawdown :
    drawdown_info [1, 2, 3] = none := by
  norm_num [drawdown_info, drawdown, runmax, runmaxAux, startIdxs, endIdxs,
    List.range_succ, List.filter]

/-! ## An exact model of the IEEE float values arising in RSI and ADX

The RSI and ADX computations divide by quantities that can be exactly zero;
numpy/pandas float arithmetic then produces ±infinity (nonzero/0) or NaN (0/0)
and propagates them.  `FP` models a float as an exact rational, +inf, -inf, or
NaN, with the IEEE semantics of the operations the code performs (ℚ has no
signed zero; none of the computations below distinguishes -0.0 from +0.0). -/

inductive FP : Type where
  | fin (q : ℚ)
  | pinf : FP
  | ninf : FP
  | nan : FP
deriving DecidableEq

/-- IEEE addition on `FP`. -/
def fpAdd : FP → FP → FP
  | FP.fin a, FP.fin b => FP.fin (a + b)
  | FP.fin _, FP.pinf => FP.pinf
  | FP.fin _, FP.ninf => FP.ninf
  | FP.pinf, FP.fin _ => FP.pinf
  | FP.ninf, FP.fin _ => FP.ninf
  | FP.pinf, FP.pinf => FP.pinf
  | FP.ninf, FP.ninf => FP.ninf
  | _, _ => FP.nan

/-- IEEE subtraction on `FP`. -/
def fpSub : FP → FP → FP
  | FP.fin a, FP.fin b => FP.fin (a - b)
  | FP.fin _, FP.pinf => FP.ninf
  | FP.fin _, FP.ninf => FP.pinf
  | FP.pinf, FP.fin _ => FP.pinf
  | FP.ninf, FP.fin _ => FP.ninf
  | FP.pinf, FP.ninf => FP.pinf
  | FP.ninf, FP.pinf => FP.ninf
  | _, _ => FP.nan

/-- IEEE multiplication on `FP`. -/
def fpMul : FP → FP → FP
  | FP.fin a, FP.fin b => FP.fin (a * b)
  | FP.fin a, FP.pinf => if a = 0 then FP.nan else if 0 < a then FP.pinf else FP.ninf
  | FP.fin a, FP.ninf => if a = 0 then FP.nan else if 0 < a then FP.ninf else FP.pinf
  | FP.pinf, FP.fin b => if b = 0 then FP.nan else if 0 < b then FP.pinf else FP.ninf
  | FP.ninf, FP.fin b => if b = 0 then FP.nan else if 0 < b then FP.ninf else FP.pinf
  | FP.pinf, FP.pinf => FP.pinf
  | FP.ninf, FP.ninf => FP.pinf
  | FP.pinf, FP.ninf => FP.ninf
  | FP.ninf, FP.pinf => FP.ninf
  | _, _ => FP.nan

/-- IEEE division on `FP` (numpy semantics: `x/0` is ±inf for `x ≠ 0` and NaN
for `x = 0`). -/
def fpDiv : FP → FP → FP
  | FP.fin a, FP.fin b =>
      if b = 0 then (if a = 0 then FP.nan else if 0 < a then FP.pinf else FP.ninf)
      else FP.fin (a / b)
  | FP.fin _, FP.pinf => FP.fin 0
  | FP.fin _, FP.ninf => FP.fin 0
  | FP.pinf, FP.fin b => if 0 ≤ b then FP.pinf else FP.ninf
  | FP.ninf, FP.fin b => if 0 ≤ b then FP.ninf else FP.pinf
  | _, _ => FP.nan

/-- IEEE absolute value on `FP`. -/
def fpAbs : FP → FP
  | FP.fin a => FP.fin |a|
  | FP.pinf => FP.pinf
  | FP.ninf => FP.pinf
  | FP.nan => FP.nan

/-! ## Relative Strength Index (`Asset.relative_strength_index`, asset.py
lines 1239-1257)

`change = close - close.shift(1)` (undefined at bar 0), `gain` clips negative
changes to 0, `loss` clips positive changes to 0 and flips the sign.  The seed
`avg_gain[n] = gain[0:n].sum() / n` sums the first `n` slots of the gain
series; the slot at bar 0 is NaN (undefined change) and pandas `sum` skips it,
so the seed is the sum of the gains at bars 1..n-1 divided by `n`.  From bar
`n+1` on, `avg[i] = (n-1) * (avg[i-1] / n) + value[i] / n`.  The averages
themselves are exact rationals (no NaN ever enters them); NaN/inf only appear
in the final `100 - 100/(1 + avg_gain/avg_loss)`, modelled over `FP`. -/

/-- Bar-to-bar close change `close[i] - close[i-1]` (meaningful for
`1 ≤ i < length`). -/
def change (c : List ℚ) (i : ℕ) : ℚ := c.getD i 0 - c.getD (i - 1) 0

/-- Gain series: negative changes clipped to 0. -/
def gain (c : List ℚ) (i : ℕ) : ℚ := max (change c i) 0

/-- Loss series: positive changes clipped to 0, sign flipped. -/
def loss (c : List ℚ) (i : ℕ) : ℚ := max (-(change c i)) 0

/-- Seed average over a value series `v`: `v[0:n].sum() / n`, the NaN slot at
bar 0 contributing nothing (pandas `sum` skips it). -/
def seedAvg (v : ℕ → ℚ) (n : ℕ) : ℚ := (((List.range n).drop 1).map v).sum / n

/-- The recursive average of `Asset.relative_strength_index` over a value
series `v` (gain or loss): 0 before the seed bar, `seedAvg` at bar `n`, and
`(n-1) * (avg[i-1] / n) + v[i] / n` afterwards. -/
def recAvg (v : ℕ → ℚ) (n : ℕ) : ℕ → ℚ
  | 0 => 0
  | i + 1 =>
      if i + 1 < n then 0
      else if i + 1 = n then seedAvg v n
      else ((n : ℚ) - 1) * (recAvg v n i / n) + v (i + 1) / n

/-- Recursive average gain at bar `i`. -/
def avgGain (c : List ℚ) (n i : ℕ) : ℚ := recAvg (gain c) n i

/-- Recursive average loss at bar `i`. -/
def avgLoss (c : List ℚ) (n i : ℕ) : ℚ := recAvg (loss c) n i

/-- `rs = avg_gain / avg_loss` in float arithmetic. -/
def rs (c : List ℚ) (n i : ℕ) : FP := fpDiv (FP.fin (avgGain c n i)) (FP.fin (avgLoss c n i))

/-- `Asset.relative_strength_index` at bar `i`:
`100 - 100 / (1 + rs)` in float arithmetic. -/
def rsi (c : List ℚ) (n i : ℕ) : FP :=
  fpSub (FP.fin 100) (fpDiv (FP.fin 100) (fpAdd (FP.fin 1) (rs c n i)))

theorem recAvg_nonneg (v : ℕ → ℚ) (n : ℕ) (hv : ∀ i, 0 ≤ v i) (hn : 1 ≤ n) (i : ℕ) :
    0 ≤ recAvg v n i := by
  induction i with
  | zero => exact le_refl 0
  | succ j ih =>
    show 0 ≤ recAvg v n (j + 1)
    rw [recAvg]
    split
    · exact le_refl 0
    · split
      · apply div_nonneg _ (by positivity)
        apply List.sum_nonneg
        intro x hx
        obtain ⟨k, _, rfl⟩ := List.mem_map.mp hx
        exact hv k
      · have h1 : (0 : ℚ) ≤ (n : ℚ) - 1 := by
          have : (1 : ℚ) ≤ (n : ℚ) := by exact_mod_cast hn
          linarith
        have h2 : (0 : ℚ) ≤ recAvg v n j / n := div_nonneg ih (by positivity)
        have h3 : (0 : ℚ) ≤ v (j + 1) / n := div_nonneg (hv (j + 1)) (by positivity)
        positivity

theorem gain_nonneg (c : List ℚ) (i : ℕ) : 0 ≤ gain c i := le_max_right _ _

theorem loss_nonneg (c : List ℚ) (i : ℕ) : 0 ≤ loss c i := le_max_right _ _

/-- **C2 (amended)** — From the seed bar on: whenever the recursive average
loss is nonzero, RSI is a finite value in [0, 100]; when the average loss is
zero the result is NaN only if the average gain is also zero, and is exactly
the finite value 100 when the average gain is positive (the division yields
+infinity, and `100 - 100/(1 + inf) = 100`). -/
theorem rsi_range_and_singularity (c : List ℚ) (n i : ℕ) (hn : 1 ≤ n)
    (_hni : n ≤ i) (_hil : i < c.length) :
    (avgLoss c n i ≠ 0 → ∃ q, rsi c n i = FP.fin q ∧ 0 ≤ q ∧ q ≤ 100) ∧
    (avgLoss c n i = 0 → avgGain c n i = 0 → rsi c n i = FP.nan) ∧
    (avgLoss c n i = 0 → avgGain c n i ≠ 0 → rsi c n i = FP.fin 100) := by
  have hG : 0 ≤ avgGain c n i := recAvg_nonneg _ n (gain_nonneg c) hn i
  have hL : 0 ≤ avgLoss c n i := recAvg_nonneg _ n (loss_nonneg c) hn i
  refine ⟨?_, ?_, ?_⟩
  · intro hLne
    have hLpos : 0 < avgLoss c n i := lt_of_le_of_ne hL (Ne.symm hLne)
    have hrs : 0 ≤ avgGain c n i / avgLoss c n i := div_nonneg hG hL
    have h1 : (0 : ℚ) < 1 + avgGain c n i / avgLoss c n i := by linarith
    refine ⟨100 - 100 / (1 + avgGain c n i / avgLoss c n i), ?_, ?_, ?_⟩
    · simp [rsi, rs, fpDiv, fpSub, fpAdd, hLne, ne_of_gt h1]
    · have : 100 / (1 + avgGain c n i / avgLoss c n i) ≤ 100 / 1 := by
        apply div_le_div_of_nonneg_left (by norm_num) (by norm_num) (by linarith)
      simp at this
      linarith
    · have : 0 < 100 / (1 + avgGain c n i / avgLoss c n i) := by positivity
      linarith
  · intro hL0 hG0
    simp [rsi, rs, fpDiv, fpAdd, fpSub, hL0, hG0]
  · intro hL0 hGne
    have hGpos : 0 < avgGain c n i := lt_of_le_of_ne hG (Ne.symm hGne)
    simp [rsi, rs, fpDiv, fpAdd, fpSub, hL0, ne_of_gt hGpos, hGpos]

/-- Witness for C2's amended theorem at closes `[1, 2, 4, 8]`, `n = 2`,
bar `i = 2` (zero average loss, positive average gain: RSI is exactly 100). -/
theorem rsi_range_and_singularity_witness :
    (1 ≤ 2 ∧ 2 ≤ 2 ∧ 2 < ([1, 2, 4, 8] : List ℚ).length) ∧
    ((avgLoss [1, 2, 4, 8] 2 2 ≠ 0 → ∃ q, rsi [1, 2, 4, 8] 2 2 = FP.fin q ∧ 0 ≤ q ∧ q ≤ 100) ∧
     (avgLoss [1, 2, 4, 8] 2 2 = 0 → avgGain [1, 2, 4, 8] 2 2 = 0 → rsi [1, 2, 4, 8] 2 2 = FP.nan) ∧
     (avgLoss [1, 2, 4, 8] 2 2 = 0 → avgGain [1, 2, 4, 8] 2 2 ≠ 0 → rsi [1, 2, 4, 8] 2 2 = FP.fin 100)) :=
  ⟨⟨by norm_num, by norm_num, by norm_num⟩,
    rsi_range_and_singularity [1, 2, 4, 8] 2 2 (by norm_num) (by norm_num) (by norm_num)⟩

/-- **C2 (counterexample)** — At closes `[1, 2, 4, 8]` with `n = 2`, bar 2:
the recursive average loss is zero, yet RSI is the finite value 100, not NaN —
refuting "undefined exactly when the average loss is zero". -/
theorem rsi_zero_loss_counterexample :
    avgLoss [1, 2, 4, 8] 2 2 = 0 ∧ avgGain [1, 2, 4, 8] 2 2 = 1 / 2 ∧
      rsi [1, 2, 4, 8] 2 2 = FP.fin 100 := by
  have hL : avgLoss [1, 2, 4, 8] 2 2 = 0 := by
    norm_num [avgLoss, recAvg, seedAvg, loss, change, List.range_succ]
  have hG : avgGain [1, 2, 4, 8] 2 2 = 1 / 2 := by
    norm_num [avgGain, recAvg, seedAvg, gain, change, List.range_succ]
  refine ⟨hL, hG, ?_⟩
  rw [rsi, rs, hL, hG]
  norm_num [fpDiv, fpAdd, fpSub]

/-- Following the claim's words (spec side, for comparison): the simple mean of
the first `n` values of a series whose first defined value is at bar 1 — i.e.
the mean of the values at bars 1..n. -/
def meanFirstN (v : ℕ → ℚ) (n : ℕ) : ℚ := (((List.range (n + 1)).drop 1).map v).sum / n

/-- **C8 (counterexample)** — At closes `[1, 3, 5]` with `n = 2` the seed
average gain is `gain[0:2].sum()/2 = gain(1)/2 = 1` (the undefined change at
bar 0 contributes nothing), while the simple mean of the first 2 gains
(bars 1 and 2) is `(2 + 2)/2 = 2`: the seed is not the simple mean of the
first `n` gains. -/
theorem rsi_seed_counterexample :
    avgGain [1, 3, 5] 2 2 = 1 ∧ meanFirstN (gain [1, 3, 5]) 2 = 2 ∧
      avgGain [1, 3, 5] 2 2 ≠ meanFirstN (gain [1, 3, 5]) 2 := by
  refine ⟨?_, ?_, ?_⟩ <;>
    norm_num [avgGain, recAvg, seedAvg, meanFirstN, gain, change, List.range_succ]

/-- **C8 (amended)** — The seed average at bar `n` is the sum of the gains
(resp. losses) at bars 1..n-1 divided by `n` — one fewer term than the claim's
"first n gains", because the slice `gain[0:n]` spans bars 0..n-1 and bar 0's
change is undefined — and for every bar `i > n` the average satisfies
`avg[i] = ((n-1)·avg[i-1] + value[i]) / n`. -/
theorem rsi_seed_and_recursion (c : List ℚ) (n : ℕ) (hn : 1 ≤ n) :
    (avgGain c n n = (((List.range n).drop 1).map (gain c)).sum / n ∧
      avgLoss c n n = (((List.range n).drop 1).map (loss c)).sum / n) ∧
    (∀ i, n < i → i < c.length →
      avgGain c n i = (((n : ℚ) - 1) * avgGain c n (i - 1) + gain c i) / n ∧
      avgLoss c n i = (((n : ℚ) - 1) * avgLoss c n (i - 1) + loss c i) / n) := by
  have hn0 : (n : ℚ) ≠ 0 := Nat.cast_ne_zero.mpr (by omega)
  constructor
  · obtain ⟨m, rfl⟩ : ∃ m, n = m + 1 := ⟨n - 1, (Nat.succ_pred_eq_of_pos hn).symm⟩
    constructor <;> simp [avgGain, avgLoss, recAvg, seedAvg]
  · intro i hni _hil
    obtain ⟨j, rfl⟩ : ∃ j, i = j + 1 :=
      ⟨i - 1, (Nat.succ_pred_eq_of_pos (lt_of_le_of_lt (Nat.zero_le n) hni)).symm⟩
    have h1 : ¬ (j + 1 < n) := by omega
    have h2 : ¬ (j + 1 = n) := by omega
    have key : ∀ v : ℕ → ℚ, recAvg v n (j + 1) = (((n : ℚ) - 1) * recAvg v n j + v (j + 1)) / n := by
      intro v
      rw [recAvg]
      simp only [h1, h2, if_false]
      field_simp
    constructor
    · simpa [avgGain, Nat.add_sub_cancel] using key (gain c)
    · simpa [avgLoss, Nat.add_sub_cancel] using key (loss c)

/-- Witness for C8's amended theorem at closes `[1, 3, 5]`, `n = 2`,
recursion instantiated at bar `i = 2`... (seed bar) and the recursion bound
checked at `i = 2` is vacuous; the seed equalities are concrete. -/
theorem rsi_seed_and_recursion_witness :
    (1 ≤ 2) ∧
    ((avgGain [1, 3, 5] 2 2 = (((List.range 2).drop 1).map (gain [1, 3, 5])).sum / 2 ∧
      avgLoss [1, 3, 5] 2 2 = (((List.range 2).drop 1).map (loss [1, 3, 5])).sum / 2) ∧
    (∀ i, 2 < i → i < ([1, 3, 5] : List ℚ).length →
      avgGain [1, 3, 5] 2 i = (((2 : ℚ) - 1) * avgGain [1, 3, 5] 2 (i - 1) + gain [1, 3, 5] i) / 2 ∧
      avgLoss [1, 3, 5] 2 i = (((2 : ℚ) - 1) * avgLoss [1, 3, 5] 2 (i - 1) + loss [1, 3, 5] i) / 2)) :=
  ⟨by norm_num, rsi_seed_and_recursion [1, 3, 5] 2 (by norm_num)⟩

/-! ## ZigZag (`Asset.zigzag`, asset.py lines 940-954)

The source keeps `lastzig`, the last pivot value; bar 0 is a pivot.  At each
later bar, if `|(lastzig - x[i]) / x[i]| > percent / 100` the bar is a pivot
(`lastzig` updated), otherwise its slot is set to None (NaN).  The final pass
is `pd.Series.interpolate`, which fills each NaN from the surrounding observed
values: linear interpolation of position between the nearest observed value on
each side, clamped to the nearest observed value when only one side has one
(the `np.interp` behaviour of the era's pandas). -/

/-- Pivot scan after bar 0: `lastzig` is the last pivot value so far. -/
def zigzagRawAux (percent lastzig : ℚ) : List ℚ → List (Option ℚ)
  | [] => []
  | x :: xs =>
      if |(lastzig - x) / x| > percent / 100
      then some x :: zigzagRawAux percent x xs
      else none :: zigzagRawAux percent lastzig xs

/-- Pivot scan: bar 0 is always a pivot, and `lastzig` starts at `x[0]`. -/
def zigzagRaw (x : List ℚ) (percent : ℚ) : List (Option ℚ) :=
  match x with
  | [] => []
  | x0 :: xs => some x0 :: zigzagRawAux percent x0 xs

/-- The nearest observed value at or before position `i` (with its position). -/
def lastObs (l : List (Option ℚ)) (i : ℕ) : Option (ℕ × ℚ) :=
  (((List.range (i + 1)).reverse).filterMap fun j => (l.getD j none).map fun v => (j, v)).head?

/-- The nearest observed value at or after position `i` (with its position). -/
def nextObs (l : List (Option ℚ)) (i : ℕ) : Option (ℕ × ℚ) :=
  ((List.range' i (l.length - i)).filterMap fun j => (l.getD j none).map fun v => (j, v)).head?

/-- `pd.Series.interpolate` at one position: observed values stay; a missing
value is linearly interpolated between the surrounding observations, or takes
the single surrounding observation when the other side has none. -/
def interpAt (l : List (Option ℚ)) (i : ℕ) : ℚ :=
  match l.getD i none with
  | some v => v
  | none =>
      match lastObs l i, nextObs l i with
      | some (j1, v1), some (j2, v2) => v1 + (v2 - v1) * ((i : ℚ) - j1) / ((j2 : ℚ) - j1)
      | some (_, v1), none => v1
      | none, some (_, v2) => v2
      | none, none => 0

/-- `pd.Series.interpolate` over the whole series. -/
def interpolate (l : List (Option ℚ)) : List ℚ :=
  (List.range l.length).map (interpAt l)

/-- `Asset.zigzag`: interpolated pivot series. -/
def zigzag (x : List ℚ) (percent : ℚ) : List ℚ :=
  interpolate (zigzagRaw x percent)

theorem interpolate_length (l : List (Option ℚ)) : (interpolate l).length = l.length := by
  simp [interpolate]

theorem interpolate_map_some (l : List ℚ) : interpolate (l.map some) = l := by
  apply List.ext_get (by simp [interpolate_length])
  intro i h1 h2
  have hget : l[i]? = some l[i] := List.getElem?_eq_getElem h2
  simp [interpolate, interpAt, List.getD_eq_getElem?_getD, hget]

/-- With threshold 0 and all adjacent closes distinct (and positive), every
bar is a pivot. -/
theorem zigzagRawAux_zero_all_pivots (xs : List ℚ) (lz : ℚ)
    (hpos : ∀ q ∈ xs, 0 < q) (hchain : List.Chain' (· ≠ ·) (lz :: xs)) :
    zigzagRawAux 0 lz xs = xs.map some := by
  induction xs generalizing lz with
  | nil => rfl
  | cons x xs ih =>
    have hx : 0 < x := hpos x (by simp)
    have hne : lz ≠ x := (List.chain'_cons.mp hchain).1
    have hcond : |(lz - x) / x| > 0 / 100 := by
      rw [zero_div, gt_iff_lt, abs_pos]
      exact div_ne_zero (sub_ne_zero.mpr hne) (ne_of_gt hx)
    rw [zigzagRawAux, if_pos hcond, List.map_cons]
    congr 1
    exact ih x (fun q hq => hpos q (List.mem_cons_of_mem _ hq)) (List.chain'_cons.mp hchain).2

/-- With threshold 100 and every later close within 100% of the first close
(relative to itself), no bar after bar 0 is a pivot. -/
theorem zigzagRawAux_hundred_no_pivots (xs : List ℚ) (lz : ℚ)
    (hpos : ∀ q ∈ xs, 0 < q) (hsmall : ∀ q ∈ xs, |lz - q| ≤ q) :
    zigzagRawAux 100 lz xs = List.replicate xs.length none := by
  induction xs with
  | nil => rfl
  | cons x xs ih =>
    have hx : 0 < x := hpos x (by simp)
    have hle : |lz - x| ≤ x := hsmall x (by simp)
    have hcond : ¬ (|(lz - x) / x| > 100 / 100) := by
      rw [gt_iff_lt, not_lt, abs_div, abs_of_pos hx]
      have h100 : (100 : ℚ) / 100 = 1 := by norm_num
      rw [h100, div_le_one hx]
      exact hle
    rw [zigzagRawAux, if_neg hcond, List.length_cons, List.replicate_succ]
    congr 1
    exact ih (fun q hq => hpos q (List.mem_cons_of_mem _ hq))
      (fun q hq => hsmall q (List.mem_cons_of_mem _ hq))

theorem getD_cons_replicate_none (x0 : ℚ) (k j : ℕ) :
    (some x0 :: List.replicate k (none : Option ℚ)).getD (j + 1) none = none := by
  simp only [List.getD_eq_getElem?_getD, List.getElem?_cons_succ, List.getElem?_replicate]
  split <;> rfl

theorem lastObs_single (x0 : ℚ) (k i : ℕ) :
    lastObs (some x0 :: List.replicate k none) i = some (0, x0) := by
  induction i with
  | zero => rfl
  | succ j ih =>
    show (((List.range (j + 1 + 1)).reverse).filterMap
        fun m => ((some x0 :: List.replicate k none).getD m none).map fun v => (m, v)).head? = _
    rw [List.range_succ, List.reverse_append, List.reverse_singleton, List.singleton_append]
    simp only [List.filterMap_cons, getD_cons_replicate_none, Option.map_none']
    exact ih

theorem nextObs_single (x0 : ℚ) (k i : ℕ) (hi : 1 ≤ i) :
    nextObs (some x0 :: List.replicate k none) i = none := by
  rw [nextObs]
  have hnil : ∀ j ∈ List.range' i ((some x0 :: List.replicate k none).length - i),
      ((some x0 :: List.replicate k none).getD j none).map (fun v => (j, v)) = none := by
    intro j hj
    have hj1 : 1 ≤ j := le_trans hi (List.mem_range'_1.mp hj).1
    obtain ⟨m, rfl⟩ : ∃ m, j = m + 1 := ⟨j - 1, (Nat.succ_pred_eq_of_pos hj1).symm⟩
    rw [getD_cons_replicate_none, Option.map_none']
  rw [List.filterMap_eq_nil_iff.mpr hnil]
  rfl

theorem interpolate_single (x0 : ℚ) (k : ℕ) :
    interpolate (some x0 :: List.replicate k none) = List.replicate (k + 1) x0 := by
  apply List.ext_get (by simp [interpolate_length])
  intro i h1 h2
  have hik : i < k + 1 := by simpa [interpolate_length] using h1
  simp only [List.get_eq_getElem, List.getElem_replicate]
  simp only [interpolate, List.getElem_map, List.getElem_range]
  cases i with
  | zero => rfl
  | succ j =>
    simp only [interpAt, getD_cons_replicate_none, lastObs_single,
      nextObs_single x0 k (j + 1) (by omega)]

/-- **C7 (counterexample)** — With threshold 0% a bar whose close equals the
last pivot value is NOT a pivot: at closes `[1, 1, 2]` the output is
`[1, 3/2, 2] ≠ [1, 1, 2]`.  And with threshold 100% a move of more than 100%
of the bar's own close does produce a second pivot: at closes `[10, 1]` both
bars are pivots. -/
theorem zigzag_counterexample :
    zigzag [1, 1, 2] 0 = [1, 3 / 2, 2] ∧ zigzag [1, 1, 2] 0 ≠ [1, 1, 2] ∧
      zigzagRaw [10, 1] 100 = [some 10, some 1] := by
  have e : zigzag [1, 1, 2] 0 = [1, 3 / 2, 2] := by
    norm_num [zigzag, zigzagRaw, zigzagRawAux, interpolate, interpAt, lastObs, nextObs,
      List.range_succ, List.range', List.filterMap_cons]
  refine ⟨e, ?_, ?_⟩
  · rw [e]
    intro h
    have := List.head_eq_of_cons_eq (List.tail_eq_of_cons_eq h)
    norm_num at this
  · norm_num [zigzagRaw, zigzagRawAux]

/-- **C7 (amended)** — For positive closes: the first output value is always
the first close; with threshold 0%, if all adjacent closes are distinct then
every bar is a pivot and the output equals the close series; with threshold
100%, if every later close is within 100% of the first close (relative to the
bar's own close, `|x[0] - x[i]| ≤ x[i]`) then only the first bar is a pivot
and all other bars are filled by interpolation, which here clamps every bar to
the first close. -/
theorem zigzag_first_and_thresholds (x0 : ℚ) (xs : List ℚ) (p : ℚ)
    (hpos : ∀ q ∈ x0 :: xs, 0 < q) :
    (zigzag (x0 :: xs) p).headD 0 = x0 ∧
    (List.Chain' (· ≠ ·) (x0 :: xs) → zigzag (x0 :: xs) 0 = x0 :: xs) ∧
    ((∀ q ∈ xs, |x0 - q| ≤ q) →
      zigzag (x0 :: xs) 100 = List.replicate (xs.length + 1) x0) := by
  refine ⟨?_, ?_, ?_⟩
  · show (interpolate (some x0 :: zigzagRawAux p x0 xs)).headD 0 = x0
    rw [interpolate]
    have : (some x0 :: zigzagRawAux p x0 xs).length = (zigzagRawAux p x0 xs).length + 1 := by
      simp
    rw [this, List.range_succ_eq_map, List.map_cons]
    simp [interpAt]
  · intro hchain
    show interpolate (some x0 :: zigzagRawAux 0 x0 xs) = x0 :: xs
    rw [zigzagRawAux_zero_all_pivots xs x0 (fun q hq => hpos q (List.mem_cons_of_mem _ hq)) hchain]
    rw [show some x0 :: xs.map some = (x0 :: xs).map some from rfl]
    exact interpolate_map_some (x0 :: xs)
  · intro hsmall
    show interpolate (some x0 :: zigzagRawAux 100 x0 xs) = List.replicate (xs.length + 1) x0
    rw [zigzagRawAux_hundred_no_pivots xs x0 (fun q hq => hpos q (List.mem_cons_of_mem _ hq)) hsmall]
    exact interpolate_single x0 xs.length

/-- Witness for C7's amended theorem at closes `[2, 3, 1]` with `p = 7`
(both side conditions hold there: adjacent closes distinct, and
`|2-3| ≤ 3`, `|2-1| ≤ 1`). -/
theorem zigzag_first_and_thresholds_witness :
    (∀ q ∈ ([2, 3, 1] : List ℚ), 0 < q) ∧
    ((zigzag [2, 3, 1] 7).headD 0 = 2 ∧
     (List.Chain' (· ≠ ·) ([2, 3, 1] : List ℚ) → zigzag [2, 3, 1] 0 = [2, 3, 1]) ∧
     ((∀ q ∈ ([3, 1] : List ℚ), |(2 : ℚ) - q| ≤ q) →
       zigzag [2, 3, 1] 100 = List.replicate (([3, 1] : List ℚ).length + 1) 2)) :=
  ⟨by norm_num, zigzag_first_and_thresholds 2 [3, 1] 7 (by norm_num)⟩

/-! ## Parabolic SAR (`Asset.parabolic_sar`, asset.py lines 819-855)

Two zero-initialised output columns (`rising`, `falling`); the carried state is
the extreme point `ep`, the acceleration factor `af`, the stop value `sar`,
and the direction flag `up`, initialised to
`(high[0], step_r, low[0], rising)`.  Each loop iteration (bars 1..N-1)
updates `ep`/`af`/`sar` in the active branch, writes `sar` into the active
column, and then checks the trend switch, resetting `sar` to `ep` and `af` to
the opposite step on a flip.  Each output row is a pair
`(rising column, falling column)`. -/

structure SarState where
  ep : ℚ
  af : ℚ
  sar : ℚ
  up : Bool
deriving DecidableEq

/-- One loop iteration of `Asset.parabolic_sar`, in the code's order: branch
update (`np.max`/`np.min` of `ep`, `af` capped with `np.min`, `sar` step),
column write, then trend-switch check. -/
def sarStep (step_r step_f max_af_r max_af_f : ℚ) (st : SarState) (hi lo : ℚ) :
    (ℚ × ℚ) × SarState :=
  if st.up then
    let ep := max st.ep hi
    let af := min (if ep = hi then st.af + step_r else st.af) max_af_r
    let sar := st.sar + af * (ep - st.sar)
    if sar > lo ∨ sar > hi then ((sar, 0), ⟨ep, step_f, ep, false⟩)
    else ((sar, 0), ⟨ep, af, sar, true⟩)
  else
    let ep := min st.ep lo
    let af := min (if ep = lo then st.af + step_f else st.af) max_af_f
    let sar := st.sar + af * (ep - st.sar)
    if sar < lo ∨ sar < hi then ((0, sar), ⟨ep, step_r, ep, true⟩)
    else ((0, sar), ⟨ep, af, sar, false⟩)

/-- The loop of `Asset.parabolic_sar` over bars 1..N-1. -/
def sarGo (step_r step_f max_af_r max_af_f : ℚ) (st : SarState) :
    List (ℚ × ℚ) → List (ℚ × ℚ)
  | [] => []
  | (hi, lo) :: rest =>
      (sarStep step_r step_f max_af_r max_af_f st hi lo).1 ::
        sarGo step_r step_f max_af_r max_af_f
          (sarStep step_r step_f max_af_r max_af_f st hi lo).2 rest

/-- `Asset.parabolic_sar`: rows `(rising column, falling column)`; row 0 keeps
the zero initialisation of both columns. -/
def parabolic_sar (highs lows : List ℚ) (step_r step_f max_af_r max_af_f : ℚ) :
    List (ℚ × ℚ) :=
  match highs, lows with
  | h0 :: hs, l0 :: ls =>
      (0, 0) :: sarGo step_r step_f max_af_r max_af_f ⟨h0, step_r, l0, true⟩ (hs.zip ls)
  | _, _ => []

/-- One per-bar transition written from the specification's words (for the C1
refinement): while rising, EP becomes `max(EP, high)`; AF increases by
`step_r` (capped at `max_af_r`) only when EP was updated to the bar's high;
SAR becomes `SAR + AF·(EP − SAR)`; the trend flips to falling when SAR exceeds
the bar's low or high, resetting SAR to EP and AF to `step_f`; symmetrically
for falling. -/
def sarStepSpec (step_r step_f max_af_r max_af_f : ℚ) (st : SarState) (hi lo : ℚ) :
    (ℚ × ℚ) × SarState :=
  if st.up then
    let ep := max st.ep hi
    let af := if ep = hi then min (st.af + step_r) max_af_r else st.af
    let sar := st.sar + af * (ep - st.sar)
    if sar > lo ∨ sar > hi then ((sar, 0), ⟨ep, step_f, ep, false⟩)
    else ((sar, 0), ⟨ep, af, sar, true⟩)
  else
    let ep := min st.ep lo
    let af := if ep = lo then min (st.af + step_f) max_af_f else st.af
    let sar := st.sar + af * (ep - st.sar)
    if sar < lo ∨ sar < hi then ((0, sar), ⟨ep, step_r, ep, true⟩)
    else ((0, sar), ⟨ep, af, sar, false⟩)

/-- The specification-side fold. -/
def sarGoSpec (step_r step_f max_af_r max_af_f : ℚ) (st : SarState) :
    List (ℚ × ℚ) → List (ℚ × ℚ)
  | [] => []
  | (hi, lo) :: rest =>
      (sarStepSpec step_r step_f max_af_r max_af_f st hi lo).1 ::
        sarGoSpec step_r step_f max_af_r max_af_f
          (sarStepSpec step_r step_f max_af_r max_af_f st hi lo).2 rest

/-- The specification-side Parabolic SAR: initial state
`EP = first high, AF = step_r, SAR = first low, direction = rising`, then the
left-to-right fold of `sarStepSpec`. -/
def parabolicSarSpec (highs lows : List ℚ) (step_r step_f max_af_r max_af_f : ℚ) :
    List (ℚ × ℚ) :=
  match highs, lows with
  | h0 :: hs, l0 :: ls =>
      (0, 0) :: sarGoSpec step_r step_f max_af_r max_af_f ⟨h0, step_r, l0, true⟩ (hs.zip ls)
  | _, _ => []

/-- The AF invariant carried through the fold: the acceleration factor never
exceeds the active phase's cap. -/
def sarInv (max_af_r max_af_f : ℚ) (st : SarState) : Prop :=
  (st.up = true → st.af ≤ max_af_r) ∧ (st.up = false → st.af ≤ max_af_f)

theorem sarStep_eq_spec (step_r step_f max_af_r max_af_f : ℚ)
    (h1 : step_r ≤ max_af_r) (h2 : step_f ≤ max_af_f)
    (st : SarState) (hi lo : ℚ) (hinv : sarInv max_af_r max_af_f st) :
    sarStep step_r step_f max_af_r max_af_f st hi lo =
      sarStepSpec step_r step_f max_af_r max_af_f st hi lo ∧
    sarInv max_af_r max_af_f (sarStep step_r step_f max_af_r max_af_f st hi lo).2 := by
  obtain ⟨hr, hf⟩ := hinv
  cases hup : st.up with
  | true =>
    have haf : st.af ≤ max_af_r := hr hup
    constructor
    · by_cases hep : max st.ep hi = hi <;>
        simp [sarStep, sarStepSpec, hup, hep, min_eq_left haf]
    · simp only [sarStep, hup, if_true]
      by_cases hep : max st.ep hi = hi <;> simp only [hep, if_true, if_false, min_eq_left haf] <;>
        split <;> simp [sarInv, h2, min_le_right, min_eq_left haf, haf]
  | false =>
    have haf : st.af ≤ max_af_f := hf hup
    constructor
    · by_cases hep : min st.ep lo = lo <;>
        simp [sarStep, sarStepSpec, hup, hep, min_eq_left haf]
    · simp only [sarStep, hup, if_false, Bool.false_eq_true]
      by_cases hep : min st.ep lo = lo <;> simp only [hep, if_true, if_false, min_eq_left haf] <;>
        split <;> simp [sarInv, h1, min_le_right, min_eq_left haf, haf]

theorem sarGo_eq_spec (step_r step_f max_af_r max_af_f : ℚ)
    (h1 : step_r ≤ max_af_r) (h2 : step_f ≤ max_af_f)
    (bars : List (ℚ × ℚ)) (st : SarState) (hinv : sarInv max_af_r max_af_f st) :
    sarGo step_r step_f max_af_r max_af_f st bars =
      sarGoSpec step_r step_f max_af_r max_af_f st bars := by
  induction bars generalizing st with
  | nil => rfl
  | cons b rest ih =>
    obtain ⟨hi, lo⟩ := b
    obtain ⟨hstep, hinv'⟩ := sarStep_eq_spec step_r step_f max_af_r max_af_f h1 h2 st hi lo hinv
    rw [sarGo, sarGoSpec, hstep]
    rw [hstep] at hinv'
    exact congrArg _ (ih _ hinv')

/-- **C1** — Provided each step size does not exceed its acceleration cap
(as with the defaults 0.02 ≤ 0.2), `parabolic_sar` equals the left-to-right
fold described by the specification: initial state
`(EP, AF, SAR, dir) = (high[0], step_r, low[0], rising)`; per bar, while
rising, `EP := max(EP, high)`, AF grows by `step_r` capped at `max_af_r` only
when EP equals the bar's high, `SAR += AF·(EP − SAR)`; the trend flips when
SAR exceeds the bar's low or high, resetting SAR to EP and AF to `step_f`
(symmetrically for falling). -/
theorem parabolic_sar_eq_spec (highs lows : List ℚ) (step_r step_f max_af_r max_af_f : ℚ)
    (h1 : step_r ≤ max_af_r) (h2 : step_f ≤ max_af_f) :
    parabolic_sar highs lows step_r step_f max_af_r max_af_f =
      parabolicSarSpec highs lows step_r step_f max_af_r max_af_f := by
  cases highs with
  | nil => rfl
  | cons h0 hs =>
    cases lows with
    | nil => rfl
    | cons l0 ls =>
      rw [parabolic_sar, parabolicSarSpec]
      exact congrArg _ (sarGo_eq_spec step_r step_f max_af_r max_af_f h1 h2 _ _
        ⟨fun _ => h1, fun h => by simp at h⟩)

/-- Witness for C1 at the source defaults
`step = 0.02`, `max acceleration = 0.2` on a concrete two-bar series. -/
theorem parabolic_sar_eq_spec_witness :
    ((2 : ℚ) / 100 ≤ 2 / 10 ∧ (2 : ℚ) / 100 ≤ 2 / 10) ∧
      parabolic_sar [10, 12] [8, 9] (2 / 100) (2 / 100) (2 / 10) (2 / 10) =
        parabolicSarSpec [10, 12] [8, 9] (2 / 100) (2 / 100) (2 / 10) (2 / 10) :=
  ⟨⟨by norm_num, by norm_num⟩,
    parabolic_sar_eq_spec [10, 12] [8, 9] _ _ _ _ (by norm_num) (by norm_num)⟩

/-- The direction flag in effect when each output row is written: `rising` for
row 0 (initial state), then the `up` flag carried into each loop iteration. -/
def sarPhases (step_r step_f max_af_r max_af_f : ℚ) (st : SarState) :
    List (ℚ × ℚ) → List Bool
  | [] => []
  | (hi, lo) :: rest =>
      st.up :: sarPhases step_r step_f max_af_r max_af_f
        (sarStep step_r step_f max_af_r max_af_f st hi lo).2 rest

/-- Phase trace of `parabolic_sar`, aligned with its output rows. -/
def parabolicSarPhases (highs lows : List ℚ) (step_r step_f max_af_r max_af_f : ℚ) :
    List Bool :=
  match highs, lows with
  | h0 :: hs, l0 :: ls =>
      true :: sarPhases step_r step_f max_af_r max_af_f ⟨h0, step_r, l0, true⟩ (hs.zip ls)
  | _, _ => []

/-- In a rising iteration the falling column receives 0. -/
theorem sarStep_out_up (step_r step_f max_af_r max_af_f : ℚ) (st : SarState) (hi lo : ℚ)
    (hup : st.up = true) : (sarStep step_r step_f max_af_r max_af_f st hi lo).1.2 = 0 := by
  simp only [sarStep, hup, if_true]
  split <;> split <;> rfl

/-- In a falling iteration the rising column receives 0. -/
theorem sarStep_out_down (step_r step_f max_af_r max_af_f : ℚ) (st : SarState) (hi lo : ℚ)
    (hup : st.up = false) : (sarStep step_r step_f max_af_r max_af_f st hi lo).1.1 = 0 := by
  simp only [sarStep, hup, if_false, Bool.false_eq_true]
  split <;> split <;> rfl

theorem sarGo_inactive_zero (step_r step_f max_af_r max_af_f : ℚ)
    (bars : List (ℚ × ℚ)) (st : SarState) (i : ℕ) :
    ((sarPhases step_r step_f max_af_r max_af_f st bars).getD i true = true →
      ((sarGo step_r step_f max_af_r max_af_f st bars).getD i (0, 0)).2 = 0) ∧
    ((sarPhases step_r step_f max_af_r max_af_f st bars).getD i true = false →
      ((sarGo step_r step_f max_af_r max_af_f st bars).getD i (0, 0)).1 = 0) := by
  induction bars generalizing st i with
  | nil => constructor <;> intro <;> rfl
  | cons b rest ih =>
    obtain ⟨hi, lo⟩ := b
    cases i with
    | zero =>
      constructor
      · intro htrue
        have hup : st.up = true := by simpa [sarPhases] using htrue
        simpa [sarGo, sarPhases] using sarStep_out_up step_r step_f max_af_r max_af_f st hi lo hup
      · intro hfalse
        have hup : st.up = false := by simpa [sarPhases] using hfalse
        simpa [sarGo, sarPhases] using sarStep_out_down step_r step_f max_af_r max_af_f st hi lo hup
    | succ j =>
      have := ih (sarStep step_r step_f max_af_r max_af_f st hi lo).2 j
      simpa [sarGo, sarPhases] using this

/-- **C10** — In `parabolic_sar`'s two-column output, at every bar the column
of the phase that is not active is exactly zero (in particular no bar carries
a SAR value in both columns): when the bar's phase is rising the falling entry
is 0, when it is falling the rising entry is 0, and row 0 — before any loop
iteration — is zero in both.  In this exact-rational embedding every stored
stop value is automatically finite, which settles the claim's finiteness part
for finite inputs. -/
theorem parabolic_sar_inactive_zero (highs lows : List ℚ)
    (step_r step_f max_af_r max_af_f : ℚ) (i : ℕ) :
    ((parabolicSarPhases highs lows step_r step_f max_af_r max_af_f).getD i true = true →
      ((parabolic_sar highs lows step_r step_f max_af_r max_af_f).getD i (0, 0)).2 = 0) ∧
    ((parabolicSarPhases highs lows step_r step_f max_af_r max_af_f).getD i true = false →
      ((parabolic_sar highs lows step_r step_f max_af_r max_af_f).getD i (0, 0)).1 = 0) ∧
    (((parabolic_sar highs lows step_r step_f max_af_r max_af_f).getD i (0, 0)).1 = 0 ∨
      ((parabolic_sar highs lows step_r step_f max_af_r max_af_f).getD i (0, 0)).2 = 0) := by
  have main : ((parabolicSarPhases highs lows step_r step_f max_af_r max_af_f).getD i true = true →
      ((parabolic_sar highs lows step_r step_f max_af_r max_af_f).getD i (0, 0)).2 = 0) ∧
      ((parabolicSarPhases highs lows step_r step_f max_af_r max_af_f).getD i true = false →
      ((parabolic_sar highs lows step_r step_f max_af_r max_af_f).getD i (0, 0)).1 = 0) := by
    cases highs with
    | nil => exact ⟨fun _ => rfl, fun _ => rfl⟩
    | cons h0 hs =>
      cases lows with
      | nil => exact ⟨fun _ => rfl, fun _ => rfl⟩
      | cons l0 ls =>
        cases i with
        | zero => exact ⟨fun _ => rfl, fun _ => rfl⟩
        | succ j =>
          have := sarGo_inactive_zero step_r step_f max_af_r max_af_f
            (hs.zip ls) ⟨h0, step_r, l0, true⟩ j
          simpa [parabolic_sar, parabolicSarPhases] using this
  refine ⟨main.1, main.2, ?_⟩
  cases hphase : (parabolicSarPhases highs lows step_r step_f max_af_r max_af_f).getD i true with
  | true => exact Or.inr (main.1 hphase)
  | false => exact Or.inl (main.2 hphase)

/-! ## Average Directional Index (`Asset.average_directional_index`, asset.py
lines 996-1012)

`tr = high - low.shift(1)` (the source's simplified true range); `+DM` keeps
the up-move `high[i] - high[i-1]` where it strictly dominates the down-move
`low[i-1] - low[i]`, and `-DM` symmetrically (the comparisons are float
comparisons, false on the NaNs of bar 0, so bar 0 keeps the initialised 0).
The three streams are smoothed by `ema(·, n)` from the missing
`compfipy/util.py`; then `dx = |(+DI - -DI)/(+DI + -DI)|` and finally
`adx = ((n-1) * dx.shift(1) + dx) / n` — a two-term combination of the
current and previous `dx`, not a recursion on `adx`. -/

/-- `Series.shift(1)`: NaN in front, last value dropped. -/
def shift1 (l : List FP) : List FP :=
  match l with
  | [] => []
  | _ => FP.nan :: l.dropLast

/-- Float `>` (false whenever either side is NaN). -/
def fpGt : FP → FP → Bool
  | FP.fin a, FP.fin b => decide (b < a)
  | FP.pinf, FP.fin _ => true
  | FP.fin _, FP.ninf => true
  | FP.pinf, FP.ninf => true
  | _, _ => false

/-- Modelled from the spec: `ema` (in the missing `compfipy/util.py`) is the
causal recursive smoothing with factor `n` that the specification names as the
filter reused across RSI/ADX/ATR — `y[i] = ((n-1)·y[i-1] + x[i]) / n` — seeded
at the series' first defined value, leading NaNs passing through. -/
def emaGo (n : ℕ) : Option FP → List FP → List FP
  | _, [] => []
  | none, x :: xs =>
      match x with
      | FP.nan => FP.nan :: emaGo n none xs
      | v => v :: emaGo n (some v) xs
  | some y, x :: xs =>
      let v := fpDiv (fpAdd (fpMul (FP.fin ((n : ℚ) - 1)) y) x) (FP.fin n)
      v :: emaGo n (some v) xs

/-- Modelled from the spec: exponential smoothing with factor `n`. -/
def ema (x : List FP) (n : ℕ) : List FP := emaGo n none x

/-- `Asset.true_range`: `high - low.shift(1)`. -/
def true_range (highs lows : List ℚ) : List FP :=
  List.zipWith fpSub (highs.map FP.fin) (shift1 (lows.map FP.fin))

/-- The up-move stream `high - high.shift(1)`. -/
def umvSeries (highs : List ℚ) : List FP :=
  List.zipWith fpSub (highs.map FP.fin) (shift1 (highs.map FP.fin))

/-- The down-move stream `low.shift(1) - low`. -/
def dmvSeries (lows : List ℚ) : List FP :=
  List.zipWith fpSub (shift1 (lows.map FP.fin)) (lows.map FP.fin)

/-- `pdm`: the up-move where it strictly dominates the down-move, else the
initialised 0 (the mask comparison is false on bar 0's NaNs). -/
def pdmSeries (highs lows : List ℚ) : List FP :=
  List.zipWith (fun u d => if fpGt u d then u else FP.fin 0) (umvSeries highs) (dmvSeries lows)

/-- `ndm`: the down-move where it strictly dominates the up-move, else 0. -/
def ndmSeries (highs lows : List ℚ) : List FP :=
  List.zipWith (fun u d => if fpGt d u then d else FP.fin 0) (umvSeries highs) (dmvSeries lows)

/-- `pdin = ema(pdm, n) / ema(tr, n)`. -/
def pdinSeries (highs lows : List ℚ) (n : ℕ) : List FP :=
  List.zipWith fpDiv (ema (pdmSeries highs lows) n) (ema (true_range highs lows) n)

/-- `ndin = ema(ndm, n) / ema(tr, n)`. -/
def ndinSeries (highs lows : List ℚ) (n : ℕ) : List FP :=
  List.zipWith fpDiv (ema (ndmSeries highs lows) n) (ema (true_range highs lows) n)

/-- The `dx` series of `Asset.average_directional_index`: the absolute
normalized directional difference `|(pdin - ndin)/(pdin + ndin)|`. -/
def dxSeries (highs lows : List ℚ) (n : ℕ) : List FP :=
  List.zipWith (fun a b => fpAbs (fpDiv (fpSub a b) (fpAdd a b)))
    (pdinSeries highs lows n) (ndinSeries highs lows n)

/-- `Asset.average_directional_index`:
`adx = ((n-1) * dx.shift(1) + dx) / n`. -/
def average_directional_index (highs lows : List ℚ) (n : ℕ) : List FP :=
  List.zipWith
    (fun prev cur => fpDiv (fpAdd (fpMul (FP.fin ((n : ℚ) - 1)) prev) cur) (FP.fin n))
    (shift1 (dxSeries highs lows n)) (dxSeries highs lows n)

theorem emaGo_length (n : ℕ) (st : Option FP) (l : List FP) :
    (emaGo n st l).length = l.length := by
  induction l generalizing st with
  | nil => cases st <;> rfl
  | cons x xs ih =>
    cases st with
    | none => cases x <;> simp [emaGo, ih]
    | some y => simp [emaGo, ih]

theorem ema_length (x : List FP) (n : ℕ) : (ema x n).length = x.length :=
  emaGo_length n none x

theorem shift1_length (l : List FP) : (shift1 l).length = l.length := by
  cases l with
  | nil => rfl
  | cons x xs => simp [shift1]

theorem shift1_getElem_succ (l : List FP) (j : ℕ) (h : j + 1 < l.length) :
    (shift1 l).get ⟨j + 1, by rw [shift1_length]; exact h⟩ =
      l.get ⟨j, by omega⟩ := by
  cases l with
  | nil => exact absurd h (by simp)
  | cons x xs =>
    simp only [shift1, List.get_eq_getElem, List.getElem_cons_succ]
    rw [List.getElem_dropLast]

theorem fpAdd_fin_fin (a b : ℚ) : fpAdd (FP.fin a) (FP.fin b) = FP.fin (a + b) := rfl

theorem fpAdd_nan_left (x : FP) : fpAdd FP.nan x = FP.nan := by cases x <;> rfl

theorem fpAdd_nan_right (x : FP) : fpAdd x FP.nan = FP.nan := by cases x <;> rfl

theorem fpMul_fin_fin (a b : ℚ) : fpMul (FP.fin a) (FP.fin b) = FP.fin (a * b) := rfl

theorem fpMul_fin_nan (a : ℚ) : fpMul (FP.fin a) FP.nan = FP.nan := rfl

theorem fpDiv_nan_left (x : FP) : fpDiv FP.nan x = FP.nan := by cases x <;> rfl

theorem fpDiv_fin_fin (a b : ℚ) (hb : b ≠ 0) :
    fpDiv (FP.fin a) (FP.fin b) = FP.fin (a / b) := by
  simp [fpDiv, hb]

/-- **C6 (counterexample)** — With highs `[10, 12, 11, 12]`, lows
`[5, 6, 4, 6]` and `n = 2` (ema modelled from the spec's recursive filter):
`dx = [NaN, 1, 1/3, 1/5]` and `adx[3] = ((n-1)·dx[2] + dx[3])/n = 4/15`,
whereas the claimed recursion on `adx` itself would give
`((n-1)·adx[2] + dx[3])/n = (2/3 + 1/5)/2 = 13/30`: the code smooths the
previous `dx`, not the previous `adx`. -/
theorem adx_recursion_counterexample :
    (average_directional_index [10, 12, 11, 12] [5, 6, 4, 6] 2).getD 3 FP.nan = FP.fin (4 / 15) ∧
    fpDiv (fpAdd (fpMul (FP.fin ((2 : ℚ) - 1))
        ((average_directional_index [10, 12, 11, 12] [5, 6, 4, 6] 2).getD 2 FP.nan))
      ((dxSeries [10, 12, 11, 12] [5, 6, 4, 6] 2).getD 3 FP.nan)) (FP.fin 2) = FP.fin (13 / 30) ∧
    (average_directional_index [10, 12, 11, 12] [5, 6, 4, 6] 2).getD 3 FP.nan ≠
      fpDiv (fpAdd (fpMul (FP.fin ((2 : ℚ) - 1))
        ((average_directional_index [10, 12, 11, 12] [5, 6, 4, 6] 2).getD 2 FP.nan))
      ((dxSeries [10, 12, 11, 12] [5, 6, 4, 6] 2).getD 3 FP.nan)) (FP.fin 2) := by
  have htr : true_range [10, 12, 11, 12] [5, 6, 4, 6] =
      [FP.nan, FP.fin 7, FP.fin 5, FP.fin 8] := by
    norm_num [true_range, shift1, fpSub]
  have humv : umvSeries [10, 12, 11, 12] = [FP.nan, FP.fin 2, FP.fin (-1), FP.fin 1] := by
    norm_num [umvSeries, shift1, fpSub]
  have hdmv : dmvSeries [5, 6, 4, 6] = [FP.nan, FP.fin (-1), FP.fin 2, FP.fin (-2)] := by
    norm_num [dmvSeries, shift1, fpSub]
  have hpdm : pdmSeries [10, 12, 11, 12] [5, 6, 4, 6] =
      [FP.fin 0, FP.fin 2, FP.fin 0, FP.fin 1] := by
    rw [pdmSeries, humv, hdmv]
    norm_num [fpGt]
  have hndm : ndmSeries [10, 12, 11, 12] [5, 6, 4, 6] =
      [FP.fin 0, FP.fin 0, FP.fin 2, FP.fin 0] := by
    rw [ndmSeries, humv, hdmv]
    norm_num [fpGt]
  have htrn : ema (true_range [10, 12, 11, 12] [5, 6, 4, 6]) 2 =
      [FP.nan, FP.fin 7, FP.fin 6, FP.fin 7] := by
    rw [htr]
    norm_num [ema, emaGo, fpAdd, fpMul, fpDiv]
  have hpdmn : ema (pdmSeries [10, 12, 11, 12] [5, 6, 4, 6]) 2 =
      [FP.fin 0, FP.fin 1, FP.fin (1 / 2), FP.fin (3 / 4)] := by
    rw [hpdm]
    norm_num [ema, emaGo, fpAdd, fpMul, fpDiv]
  have hndmn : ema (ndmSeries [10, 12, 11, 12] [5, 6, 4, 6]) 2 =
      [FP.fin 0, FP.fin 0, FP.fin 1, FP.fin (1 / 2)] := by
    rw [hndm]
    norm_num [ema, emaGo, fpAdd, fpMul, fpDiv]
  have hpdin : pdinSeries [10, 12, 11, 12] [5, 6, 4, 6] 2 =
      [FP.nan, FP.fin (1 / 7), FP.fin (1 / 12), FP.fin (3 / 28)] := by
    rw [pdinSeries, hpdmn, htrn]
    norm_num [fpDiv]
  have hndin : ndinSeries [10, 12, 11, 12] [5, 6, 4, 6] 2 =
      [FP.nan, FP.fin 0, FP.fin (1 / 6), FP.fin (1 / 14)] := by
    rw [ndinSeries, hndmn, htrn]
    norm_num [fpDiv]
  have hdx : dxSeries [10, 12, 11, 12] [5, 6, 4, 6] 2 =
      [FP.nan, FP.fin 1, FP.fin (1 / 3), FP.fin (1 / 5)] := by
    rw [dxSeries, hpdin, hndin]
    norm_num [fpSub, fpAdd, fpDiv, fpAbs]
  have hadx : average_directional_index [10, 12, 11, 12] [5, 6, 4, 6] 2 =
      [FP.nan, FP.nan, FP.fin (2 / 3), FP.fin (4 / 15)] := by
    rw [average_directional_index, hdx]
    norm_num [shift1, fpAdd_fin_fin, fpMul_fin_fin, fpMul_fin_nan, fpAdd_nan_left,
      fpAdd_nan_right, fpDiv_nan_left, fpDiv_fin_fin]
  rw [hadx, hdx]
  refine ⟨rfl, ?_, ?_⟩
  · norm_num [fpMul_fin_fin, fpAdd_fin_fin, fpDiv_fin_fin]
  · norm_num [fpMul_fin_fin, fpAdd_fin_fin, fpDiv_fin_fin]

/-- **C6 (amended)** — For every bar `i ≥ 1` (within range),
`adx[i] = ((n−1)·dx[i−1] + dx[i]) / n`: the smoothing uses the previous `dx`
value (`dx.shift(1)`), a two-term weighted combination rather than a causal
recursion on `adx` itself; `adx[0]` pairs `dx[0]` with the shifted-in NaN. -/
theorem adx_eq_shifted_dx (highs lows : List ℚ) (n i : ℕ) (hi1 : 1 ≤ i)
    (hil : i < (dxSeries highs lows n).length) :
    (average_directional_index highs lows n).getD i FP.nan =
      fpDiv (fpAdd (fpMul (FP.fin ((n : ℚ) - 1))
          ((dxSeries highs lows n).getD (i - 1) FP.nan))
        ((dxSeries highs lows n).getD i FP.nan)) (FP.fin n) := by
  obtain ⟨j, rfl⟩ : ∃ j, i = j + 1 := ⟨i - 1, (Nat.succ_pred_eq_of_pos hi1).symm⟩
  have hzl : (average_directional_index highs lows n).length =
      (dxSeries highs lows n).length := by
    simp [average_directional_index, shift1_length]
  have hj1 : j + 1 < (average_directional_index highs lows n).length := by omega
  have hjdx : j < (dxSeries highs lows n).length := by omega
  rw [List.getD_eq_getElem _ _ hj1, List.getD_eq_getElem _ _ hil,
    List.getD_eq_getElem _ _ (by omega : j + 1 - 1 < (dxSeries highs lows n).length)]
  simp only [average_directional_index]
  rw [List.getElem_zipWith]
  have hs := shift1_getElem_succ (dxSeries highs lows n) j hil
  simp only [List.get_eq_getElem] at hs
  rw [hs]
  congr 1

/-- Witness for C6's amended theorem at the concrete series above, `i = 2`. -/
theorem adx_eq_shifted_dx_witness :
    (1 ≤ 2 ∧ 2 < (dxSeries [10, 12, 11, 12] [5, 6, 4, 6] 2).length) ∧
    (average_directional_index [10, 12, 11, 12] [5, 6, 4, 6] 2).getD 2 FP.nan =
      fpDiv (fpAdd (fpMul (FP.fin ((2 : ℚ) - 1))
          ((dxSeries [10, 12, 11, 12] [5, 6, 4, 6] 2).getD (2 - 1) FP.nan))
        ((dxSeries [10, 12, 11, 12] [5, 6, 4, 6] 2).getD 2 FP.nan)) (FP.fin 2) :=
  ⟨⟨by norm_num, by
      norm_num [dxSeries, pdinSeries, ndinSeries, pdmSeries, ndmSeries, umvSeries, dmvSeries,
        true_range, List.length_zipWith, shift1_length, ema_length]⟩,
    adx_eq_shifted_dx [10, 12, 11, 12] [5, 6, 4, 6] 2 2 (by norm_num) (by
      norm_num [dxSeries, pdinSeries, ndinSeries, pdmSeries, ndmSeries, umvSeries, dmvSeries,
        true_range, List.length_zipWith, shift1_length, ema_length])⟩

/-! ## Summary statistics (`Asset.calc_stats`, asset.py lines 197-360)

`calc_stats` first fills a dict with `start`/`end`/`name`/`market_cap`/
`yearly_risk_free_return` populated and every other metric NaN (and an empty
return table), returns it unchanged when the series has exactly one bar, and
again returns it unchanged when `calc_returns(daily_price)` has fewer than 4
entries; only past that guard are any metrics computed.  A bar is a
`(timestamp, close)` pair; NaN metric slots are `Option ℚ` (`none` = NaN).
The computation past the guard is irrelevant to the 3-bar claim and is passed
in as an opaque continuation `rest`, so the theorem holds for any completion
of it. -/

structure Stats where
  name : String
  start : ℕ
  end_ : ℕ
  market_cap : ℚ
  yearly_risk_free_return : ℚ
  daily_mean : Option ℚ
  daily_vol : Option ℚ
  daily_sharpe : Option ℚ
  best_day : Option ℚ
  worst_day : Option ℚ
  total_return : Option ℚ
  cagr : Option ℚ
  incep : Option ℚ
  max_drawdown : Option ℚ
  avg_drawdown : Option ℚ
  avg_drawdown_days : Option ℚ
  daily_skew : Option ℚ
  daily_kurt : Option ℚ
  monthly_mean : Option ℚ
  monthly_vol : Option ℚ
  monthly_sharpe : Option ℚ
  best_month : Option ℚ
  worst_month : Option ℚ
  mtd : Option ℚ
  pos_month_perc : Option ℚ
  avg_up_month : Option ℚ
  avg_down_month : Option ℚ
  three_month : Option ℚ
  monthly_skew : Option ℚ
  monthly_kurt : Option ℚ
  six_month : Option ℚ
  ytd : Option ℚ
  one_year : Option ℚ
  yearly_mean : Option ℚ
  yearly_vol : Option ℚ
  yearly_sharpe : Option ℚ
  best_year : Option ℚ
  worst_year : Option ℚ
  three_year : Option ℚ
  win_year_perc : Option ℚ
  twelve_month_win_perc : Option ℚ
  yearly_skew : Option ℚ
  yearly_kurt : Option ℚ
  five_year : Option ℚ
  ten_year : Option ℚ
  return_table : List (ℤ × List (ℕ × ℚ))

/-- The initial stats dict: identification fields populated, every metric NaN,
empty return table. -/
def baseStats (sym : String) (bars : List (ℕ × ℚ)) (mc rfr : ℚ) : Stats where
  name := sym
  start := (bars.headD (0, 0)).1
  end_ := (bars.getLastD (0, 0)).1
  market_cap := mc
  yearly_risk_free_return := rfr
  daily_mean := none
  daily_vol := none
  daily_sharpe := none
  best_day := none
  worst_day := none
  total_return := none
  cagr := none
  incep := none
  max_drawdown := none
  avg_drawdown := none
  avg_drawdown_days := none
  daily_skew := none
  daily_kurt := none
  monthly_mean := none
  monthly_vol := none
  monthly_sharpe := none
  best_month := none
  worst_month := none
  mtd := none
  pos_month_perc := none
  avg_up_month := none
  avg_down_month := none
  three_month := none
  monthly_skew := none
  monthly_kurt := none
  six_month := none
  ytd := none
  one_year := none
  yearly_mean := none
  yearly_vol := none
  yearly_sharpe := none
  best_year := none
  worst_year := none
  three_year := none
  win_year_perc := none
  twelve_month_win_perc := none
  yearly_skew := none
  yearly_kurt := none
  five_year := none
  ten_year := none
  return_table := []

/-- Modelled from the spec: `calc_returns` lives in the missing
`compfipy/util.py`; the spec treats it as the per-period fractional return
series of a price series, undefined at the first bar (so a series of N prices
yields a length-N series whose defined entries are the N-1 returns). -/
def calcReturns (c : List ℚ) : List (Option ℚ) :=
  match c with
  | [] => []
  | _ :: rest => none :: List.zipWith (fun prev cur => some (cur / prev - 1)) c rest

/-- `Asset.calc_stats`: the initial dict, the one-bar early return, the
`len(calc_returns) < 4` early return, and otherwise the metric computation
(abstracted as `rest`, which this development never needs to enter). -/
def calc_stats (rest : Stats → List (ℕ × ℚ) → Stats) (sym : String)
    (bars : List (ℕ × ℚ)) (mc rfr : ℚ) : Stats :=
  if bars.length = 1 then baseStats sym bars mc rfr
  else if (calcReturns (bars.map (fun b => b.2))).length < 4 then baseStats sym bars mc rfr
  else rest (baseStats sym bars mc rfr) bars

theorem calcReturns_length (c : List ℚ) : (calcReturns c).length = c.length := by
  cases c with
  | nil => rfl
  | cons x rest => simp [calcReturns]

/-- **C4** — For every 3-bar daily series, `calc_stats` returns (for any
completion `rest` of the post-guard computation) the report whose only
populated fields are name, start, end, market_cap and the risk-free rate;
every other metric is `none` (NaN, never zero) and the return table is empty,
because the 4-daily-return threshold is not met. -/
theorem calc_stats_three_bars (rest : Stats → List (ℕ × ℚ) → Stats) (sym : String)
    (bars : List (ℕ × ℚ)) (mc rfr : ℚ) (h3 : bars.length = 3) :
    calc_stats rest sym bars mc rfr =
      { name := sym
        start := (bars.headD (0, 0)).1
        end_ := (bars.getLastD (0, 0)).1
        market_cap := mc
        yearly_risk_free_return := rfr
        daily_mean := none, daily_vol := none, daily_sharpe := none
        best_day := none, worst_day := none, total_return := none
        cagr := none, incep := none, max_drawdown := none
        avg_drawdown := none, avg_drawdown_days := none
        daily_skew := none, daily_kurt := none
        monthly_mean := none, monthly_vol := none, monthly_sharpe := none
        best_month := none, worst_month := none, mtd := none
        pos_month_perc := none, avg_up_month := none, avg_down_month := none
        three_month := none, monthly_skew := none, monthly_kurt := none
        six_month := none, ytd := none, one_year := none
        yearly_mean := none, yearly_vol := none, yearly_sharpe := none
        best_year := none, worst_year := none, three_year := none
        win_year_perc := none, twelve_month_win_perc := none
        yearly_skew := none, yearly_kurt := none
        five_year := none, ten_year := none
        return_table := [] } := by
  have hr : (calcReturns (bars.map (fun b => b.2))).length = 3 := by
    rw [calcReturns_length, List.length_map, h3]
  rw [calc_stats, h3, hr]
  norm_num [baseStats]

/-- Witness for C4 at the concrete 3-bar series
`[(0, 1), (1, 2), (2, 3)]` with `rest` the identity completion. -/
theorem calc_stats_three_bars_witness :
    (([((0 : ℕ), (1 : ℚ)), (1, 2), (2, 3)] : List (ℕ × ℚ)).length = 3) ∧
    calc_stats (fun s _ => s) "A" [((0 : ℕ), (1 : ℚ)), (1, 2), (2, 3)] 1 0 =
      { name := "A"
        start := (([((0 : ℕ), (1 : ℚ)), (1, 2), (2, 3)] : List (ℕ × ℚ)).headD (0, 0)).1
        end_ := (([((0 : ℕ), (1 : ℚ)), (1, 2), (2, 3)] : List (ℕ × ℚ)).getLastD (0, 0)).1
        market_cap := 1
        yearly_risk_free_return := 0
        daily_mean := none, daily_vol := none, daily_sharpe := none
        best_day := none, worst_day := none, total_return := none
        cagr := none, incep := none, max_drawdown := none
        avg_drawdown := none, avg_drawdown_days := none
        daily_skew := none, daily_kurt := none
        monthly_mean := none, monthly_vol := none, monthly_sharpe := none
        best_month := none, worst_month := none, mtd := none
        pos_month_perc := none, avg_up_month := none, avg_down_month := none
        three_month := none, monthly_skew := none, monthly_kurt := none
        six_month := none, ytd := none, one_year := none
        yearly_mean := none, yearly_vol := none, yearly_sharpe := none
        best_year := none, worst_year := none, three_year := none
        win_year_perc := none, twelve_month_win_perc := none
        yearly_skew := none, yearly_kurt := none
        five_year := none, ten_year := none
        return_table := [] } :=
  ⟨rfl, calc_stats_three_bars (fun s _ => s) "A" _ 1 0 rfl⟩

/-! ## The year×month return table (`Asset.calc_stats`, asset.py lines 302-312)

With at least 2 monthly returns, the code builds
`return_table = defaultdict(dict)`; for each monthly-return index it sets
`table[year][month] = return`; it then overwrites the first month's slot with
`monthly_price[0]/daily_price[0] - 1` (0.0 on a `ZeroDivisionError`); finally,
for each year it synthesizes `table[year][13] = prod(months.values() + 1) - 1`
over that year's entries at that point (the 13-slot of a year is inserted
after its own product is taken, so it never feeds its own compounding).
Dicts are embedded as association lists with insert-or-update. -/

/-- Insert-or-update in an association list (Python dict assignment). -/
def insertAL (k : ℕ) (v : ℚ) : List (ℕ × ℚ) → List (ℕ × ℚ)
  | [] => [(k, v)]
  | (k', v') :: rest => if k' = k then (k, v) :: rest else (k', v') :: insertAL k v rest

/-- Lookup in an association list. -/
def lookupAL (k : ℕ) : List (ℕ × ℚ) → Option ℚ
  | [] => none
  | (k', v') :: rest => if k' = k then some v' else lookupAL k rest

/-- `table[year][month] = v` on the nested table (`defaultdict(dict)` creates
a missing year's inner dict on demand). -/
def insertRT (y : ℤ) (m : ℕ) (v : ℚ) : List (ℤ × List (ℕ × ℚ)) → List (ℤ × List (ℕ × ℚ))
  | [] => [(y, [(m, v)])]
  | (y', ms) :: rest => if y' = y then (y, insertAL m v ms) :: rest else (y', ms) :: insertRT y m v rest

/-- Lookup of a year's inner month dict. -/
def lookupRT (y : ℤ) : List (ℤ × List (ℕ × ℚ)) → Option (List (ℕ × ℚ))
  | [] => none
  | (y', ms) :: rest => if y' = y then some ms else lookupRT y rest

/-- The `for mi in mr.index: table[mi.year][mi.month] = mr[mi]` loop over the
monthly-return entries `(year, month, value)`. -/
def buildRT (entries : List (ℤ × ℕ × ℚ)) : List (ℤ × List (ℕ × ℚ)) :=
  entries.foldl (fun t e => insertRT e.1 e.2.1 e.2.2 t) []

/-- The first-month overwrite:
`table[fidx.year][fidx.month] = float(monthly_price[0])/daily_price[0] - 1`,
with the `ZeroDivisionError` fallback to `0.0`. -/
def adjustRT (entries : List (ℤ × ℕ × ℚ)) (monthly0 daily0 : ℚ)
    (t : List (ℤ × List (ℕ × ℚ))) : List (ℤ × List (ℕ × ℚ)) :=
  match entries.head? with
  | some (y0, m0, _) => insertRT y0 m0 (if daily0 = 0 then 0 else monthly0 / daily0 - 1) t
  | none => t

/-- `np.prod(np.array(months.values()) + 1) - 1` over a year's entries. -/
def ytdOf (ms : List (ℕ × ℚ)) : ℚ := (ms.foldl (fun p e => p * (1 + e.2)) 1) - 1

/-- The YTD pass: each year gets slot 13 set to the compounded product of the
entries it holds at that point. -/
def addYTD (t : List (ℤ × List (ℕ × ℚ))) : List (ℤ × List (ℕ × ℚ)) :=
  t.map (fun p => (p.1, insertAL 13 (ytdOf p.2) p.2))

/-- The full return-table construction of `calc_stats` (lines 302-312), from
the monthly-return entries and the two prices of the first-month overwrite. -/
def returnTable (entries : List (ℤ × ℕ × ℚ)) (monthly0 daily0 : ℚ) :
    List (ℤ × List (ℕ × ℚ)) :=
  addYTD (adjustRT entries monthly0 daily0 (buildRT entries))

theorem lookupRT_addYTD (t : List (ℤ × List (ℕ × ℚ))) (y : ℤ) :
    lookupRT y (addYTD t) = (lookupRT y t).map (fun ms => insertAL 13 (ytdOf ms) ms) := by
  induction t with
  | nil => rfl
  | cons p rest ih =>
    obtain ⟨y', ms⟩ := p
    by_cases hy : y' = y
    · simp [addYTD, lookupRT, hy]
    · simp [addYTD, lookupRT, hy]
      simpa [addYTD] using ih

theorem lookupAL_insertAL_same (k : ℕ) (v : ℚ) (l : List (ℕ × ℚ)) :
    lookupAL k (insertAL k v l) = some v := by
  induction l with
  | nil => simp [insertAL, lookupAL]
  | cons p rest ih =>
    obtain ⟨k', v'⟩ := p
    by_cases hk : k' = k <;> simp [insertAL, lookupAL, hk, ih]

/-- **C5** — Whenever the return table is built, every year present in it
carries a synthesized month-13 entry equal to the compounded product of
`(1 + return)` over that year's monthly return entries, minus 1 (the entries
of the per-year dict just before the YTD pass, i.e. the monthly returns with
the first month overwritten). -/
theorem return_table_ytd (entries : List (ℤ × ℕ × ℚ)) (monthly0 daily0 : ℚ)
    (y : ℤ) (ms' : List (ℕ × ℚ))
    (hy : lookupRT y (returnTable entries monthly0 daily0) = some ms') :
    ∃ ms, lookupRT y (adjustRT entries monthly0 daily0 (buildRT entries)) = some ms ∧
      ms' = insertAL 13 (ytdOf ms) ms ∧
      lookupAL 13 ms' = some ((ms.foldl (fun p e => p * (1 + e.2)) 1) - 1) := by
  rw [returnTable, lookupRT_addYTD] at hy
  cases hms : lookupRT y (adjustRT entries monthly0 daily0 (buildRT entries)) with
  | none => rw [hms] at hy; exact absurd hy (by simp)
  | some ms =>
    rw [hms] at hy
    simp only [Option.map_some', Option.some.injEq] at hy
    refine ⟨ms, rfl, hy.symm, ?_⟩
    rw [← hy, lookupAL_insertAL_same]
    rfl

/-- Witness for C5 at the monthly returns
`[(2020, 1, 1/10), (2020, 2, 1/5)]` with `monthly_price[0] = 2`,
`daily_price[0] = 1`: the first month is overwritten to `2/1 - 1 = 1` and
the year-2020 slot 13 holds `(1+1)(1+1/5) - 1 = 7/5`. -/
theorem return_table_ytd_witness :
    lookupRT 2020 (returnTable [(2020, 1, 1 / 10), (2020, 2, 1 / 5)] 2 1) =
      some [(1, 1), (2, 1 / 5), (13, 7 / 5)] ∧
    (∃ ms, lookupRT 2020
        (adjustRT [(2020, 1, 1 / 10), (2020, 2, 1 / 5)] 2 1
          (buildRT [(2020, 1, 1 / 10), (2020, 2, 1 / 5)])) = some ms ∧
      ([((1 : ℕ), (1 : ℚ)), (2, 1 / 5), (13, 7 / 5)] : List (ℕ × ℚ)) =
        insertAL 13 (ytdOf ms) ms ∧
      lookupAL 13 [((1 : ℕ), (1 : ℚ)), (2, 1 / 5), (13, 7 / 5)] =
        some ((ms.foldl (fun p e => p * (1 + e.2)) 1) - 1)) := by
  have hy : lookupRT 2020 (returnTable [(2020, 1, 1 / 10), (2020, 2, 1 / 5)] 2 1) =
      some [(1, 1), (2, 1 / 5), (13, 7 / 5)] := by
    norm_num [returnTable, buildRT, adjustRT, addYTD, insertRT, insertAL, lookupRT, ytdOf]
  exact ⟨hy, return_table_ytd [(2020, 1, 1 / 10), (2020, 2, 1 / 5)] 2 1 2020 _ hy⟩

end Compfipy
